import Mathlib

/-!
Verification development for the code_utils library (code_utils.hpp).

The C++ source is shallowly embedded as follows:

* The variadic printer `print<sep, end>(first, rest...)` over stream-writable
  scalars is `printScalars`: each rendered value is modelled as a `List Char`,
  the recursion writes the value, then the separator, then recurses; the
  nullary base case writes only the terminator character.
* The container overload `print<sep, end>(Container auto const&)` is
  `printContainer`: it computes the last element as the one-before-end
  access `*(output.end()-1)` (modelled by `List.getLast?`; an empty
  container makes this access invalid, modelled by `none`), then iterates
  over all elements, delegating each to the scalar printer with either a
  comma or a closing brace depending on value equality with the last
  element.  There is no early exit in the loop.
* `human_readable_time` acts on a `long long` nanosecond count (`Int`).
  The C++ branch conditions compare `double` quotients against 1; for
  every `long long` input these comparisons coincide with the integer
  threshold comparisons used below, because the thresholds (10^3, 10^6,
  10^9, 6*10^10, 36*10^11) are all exactly representable doubles below
  2^53, the cast of any integer of magnitude at most 2^53 is exact, and
  larger inputs remain far above every threshold after rounding.
  `long long` division truncates toward zero, which is `Int.tdiv`.
* `Timer` report emission is modelled as a state machine over the single
  `stopped` flag: `stop()` emits one report and sets the flag, `restart()`
  only resets the start instant (it does not touch the flag), and the
  destructor invokes `stop()` exactly when the flag is still unset.
* `xorshift32` holds a single 32-bit word, modelled as a `Nat` together
  with the bound `seed_ < 2 ^ 32` where it matters; `uint32_t` wraparound
  of the left shifts is `% 2 ^ 32`.  `operator()` is `xorshift32.next`
  (returning the new generator and the returned value), `discard` takes a
  `long long` count and loops that many times (never for non-positive
  counts), `operator<<` writes the decimal digits of the state and
  `operator>>` parses them back.
-/

namespace CodeUtils

/-- Model of the recursive variadic print over stream-writable scalars:
`print<sep, end>()` writes only the terminator, and
`print<sep, end>(first, rest...)` writes `first`, then `sep`, then recurses
on `rest...`.  Every rendered argument is a list of characters. -/
def printScalars (sep endc : Char) : List (List Char) → List Char
  | [] => [endc]
  | v :: rest => v ++ sep :: printScalars sep endc rest

/-- Model of the per-element body of the container print loop: an element
that compares unequal to the last element is delegated as
`print<sep, ' '>(elem, ',')`, and one that compares equal is delegated as
`print<sep, end>(elem, '}')`. -/
def containerItem {α : Type} [DecidableEq α] (sep endc : Char)
    (render : α → List Char) (last elem : α) : List Char :=
  if elem ≠ last then printScalars sep ' ' [render elem, [',']]
  else printScalars sep endc [render elem, ['}']]

/-- Model of the container overload of print.  The last element is the
one-before-end access `*(output.end()-1)`, which has no valid result on an
empty range (`none`); otherwise the routine writes `print<sep, ' '>('{')`
and then iterates over all elements of the container. -/
def printContainer {α : Type} [DecidableEq α] (sep endc : Char)
    (render : α → List Char) (xs : List α) : Option (List Char) :=
  match xs.getLast? with
  | none => none
  | some last =>
      some (printScalars sep ' ' [['{']] ++
        (xs.map (containerItem sep endc render last)).flatten)

/-- Record produced by the timer conversion routine, mirroring the C++
aggregate field for field. -/
structure HumanReadableTime where
  unit : String
  unit_fine : String
  diff : Int
  diff_fine : Int
  diff_ns : Int
deriving DecidableEq

/-- Model of `human_readable_time` on a nanosecond count.  Branch
conditions follow the source order; divisions are truncating `long long`
divisions (`Int.tdiv`).  The raw count and the fine magnitude start out as
copies of the input and are only divided in the branches that do so in the
source; the hour branch divides the fine magnitude by 60000000 exactly as
the source line `diff_fine /= 60'000'000ll;` does. -/
def human_readable_time (diff0 : Int) : HumanReadableTime :=
  if diff0 < 1000 then
    ⟨" ns", "", diff0, diff0, diff0⟩
  else if diff0 < 1000000 then
    ⟨" µs", "", Int.tdiv diff0 1000, diff0, diff0⟩
  else if diff0 < 1000000000 then
    ⟨" ms", " µs", Int.tdiv diff0 1000000, Int.tdiv diff0 1000, diff0⟩
  else if diff0 < 60000000000 then
    ⟨" s", " ms", Int.tdiv diff0 1000000000, Int.tdiv diff0 1000000, diff0⟩
  else if diff0 < 3600000000000 then
    ⟨" m", " s", Int.tdiv diff0 60000000000, Int.tdiv diff0 1000000000, diff0⟩
  else
    ⟨" h", " m", Int.tdiv diff0 3600000000000, Int.tdiv diff0 60000000, diff0⟩

/-- Operations a client can perform on a live Timer that are relevant to
report emission. -/
inductive TimerOp where
  | stop
  | restart
deriving DecidableEq

/-- One step of the Timer report state machine on the pair
(stopped flag, reports emitted so far): `stop()` computes and prints one
report and sets `stopped = true`; `restart()` only resets the start
instant and leaves the flag and the report count unchanged. -/
def timerApply : Bool × Nat → TimerOp → Bool × Nat
  | (_, r), TimerOp.stop => (true, r + 1)
  | (s, r), TimerOp.restart => (s, r)

/-- The destructor runs `stop()` (emitting one report) exactly when the
`stopped` flag is still false. -/
def timerDestruct : Bool × Nat → Nat
  | (s, r) => if s then r else r + 1

/-- Total number of reports emitted over a full construction-to-destruction
lifetime performing the given operations in order: the Timer is
constructed with `stopped = false` and no report emitted, the operations
run, and the destructor fires last. -/
def timerLifetimeReports (ops : List TimerOp) : Nat :=
  timerDestruct (ops.foldl timerApply (false, 0))

/-- Model of the xorshift32 generator: a single 32-bit unsigned state word.
The bound `seed_ < 2 ^ 32` is carried as a hypothesis where needed. -/
structure xorshift32 where
  seed_ : Nat
deriving DecidableEq

/-- Default construction seeds the state with the fixed constant 12. -/
def xorshift32.init : xorshift32 := ⟨12⟩

/-- Explicit construction from a seed value; the `uint32_t` parameter
truncates the supplied value to 32 bits. -/
def xorshift32.ofSeed (s : Nat) : xorshift32 := ⟨s % 2 ^ 32⟩

/-- Model of `xorshift32::operator()`: three xor-shift assignments on
`uint32_t` (left shifts wrap modulo `2 ^ 32`), the result is stored back
into the state and also returned.  The pair holds the updated generator
and the returned value. -/
def xorshift32.next (g : xorshift32) : xorshift32 × Nat :=
  let x0 := g.seed_
  let x1 := x0 ^^^ ((x0 <<< 13) % 2 ^ 32)
  let x2 := x1 ^^^ (x1 >>> 17)
  let x3 := x2 ^^^ ((x2 <<< 5) % 2 ^ 32)
  (⟨x3⟩, x3)

/-- Model of the loop body of `xorshift32::discard`: the generator is
invoked once per iteration, `z` times in total. -/
def discardN : xorshift32 → Nat → xorshift32
  | g, 0 => g
  | g, n + 1 => discardN (g.next).1 n

/-- Model of `xorshift32::discard(long long z)`: the loop
`for (i = 0; i < z; ++i) (*this)();` runs `z` iterations when `z` is
positive and none otherwise, hence `z.toNat` invocations. -/
def xorshift32.discard (g : xorshift32) (z : Int) : xorshift32 :=
  discardN g z.toNat

/-- Outputs of `n` successive generation calls, in order. -/
def genList : xorshift32 → Nat → List Nat
  | _, 0 => []
  | g, n + 1 => (g.next).2 :: genList (g.next).1 n

/-- Model of `xorshift32::operator==`: raw state comparison. -/
def xorshift32.eqOp (a b : xorshift32) : Bool := a.seed_ == b.seed_

/-- Little-endian decimal digits of `n`, with explicit fuel (the number
itself suffices, since the argument strictly decreases under division by
ten). -/
def decDigitsAux : Nat → Nat → List Nat
  | 0, _ => []
  | _ + 1, 0 => []
  | f + 1, n + 1 => (n + 1) % 10 :: decDigitsAux f ((n + 1) / 10)

/-- Little-endian decimal digits of a positive number. -/
def decDigits (n : Nat) : List Nat := decDigitsAux n n

/-- Model of `operator<<` for the generator: the stream renders the state
in decimal with default numeric formatting (most significant digit first,
a single digit 0 for a zero state, no surrounding punctuation). -/
def xorshift32.write (g : xorshift32) : List Char :=
  if g.seed_ = 0 then ['0'] else ((decDigits g.seed_).map Nat.digitChar).reverse

/-- Model of reading one decimal integer token from a stream: digits are
consumed left to right, each scaling the accumulator by ten and adding the
digit value of the character. -/
def decCharsToNat (cs : List Char) : Nat :=
  cs.foldl (fun a c => a * 10 + (c.toNat - 48)) 0

/-- Model of `operator>>` for the generator: the parsed decimal value
replaces the state of the target generator. -/
def xorshift32.read (cs : List Char) : xorshift32 := ⟨decCharsToNat cs⟩

/-- Value of `n` from its little-endian decimal digit list. -/
def ofDigits10 : List Nat → Nat
  | [] => 0
  | d :: t => d + 10 * ofDigits10 t

/-- Single xor-with-shifted-left step on a 32-bit word, as executed by the
assignments with shift amounts 13 and 5. -/
def leftStep (k x : Nat) : Nat := x ^^^ ((x <<< k) % 2 ^ 32)

/-- Single xor-with-shifted-right step on a 32-bit word, as executed by
the assignment with shift amount 17. -/
def rightStep (x : Nat) : Nat := x ^^^ (x >>> 17)

/-- The complete state transition of one generation call. -/
def xsStep (x : Nat) : Nat := leftStep 5 (rightStep (leftStep 13 x))

/-- Modelled from the spec: the transition as the spec phrases it, namely
the three xor-shift steps with shift amounts 13, 17, 5 carried out in
32-bit wraparound arithmetic (every intermediate reduced modulo
`2 ^ 32`). -/
def specTransition (x : Nat) : Nat :=
  let x1 := (x ^^^ (x <<< 13)) % 2 ^ 32
  let x2 := (x1 ^^^ (x1 >>> 17)) % 2 ^ 32
  (x2 ^^^ (x2 <<< 5)) % 2 ^ 32

/-! Theorems.  Each claim of the specification is settled by exactly one
theorem below; helper lemmas are shared. -/

lemma printScalars_pair_length (sep endc : Char) (a b : List Char) :
    (printScalars sep endc [a, b]).length = a.length + b.length + 3 := by
  simp [printScalars]
  omega

lemma containerItem_length {α : Type} [DecidableEq α] (sep endc : Char)
    (render : α → List Char) (last e : α) :
    (containerItem sep endc render last e).length = (render e).length + 4 := by
  unfold containerItem
  by_cases h : e ≠ last <;> simp [h, printScalars_pair_length]

lemma containerItem_count_ne {α : Type} [DecidableEq α] (sep endc : Char)
    (render : α → List Char) (last e : α) (hr : '}' ∉ render e)
    (hsep : sep ≠ '}') (he : e ≠ last) :
    List.count '}' (containerItem sep endc render last e) = 0 := by
  simp [containerItem, he, printScalars, List.count_cons, hsep,
    List.count_eq_zero.mpr hr]

lemma containerItem_count_eq {α : Type} [DecidableEq α] (sep endc : Char)
    (render : α → List Char) (last e : α) (hr : '}' ∉ render e)
    (hsep : sep ≠ '}') (hend : endc ≠ '}') (he : e = last) :
    List.count '}' (containerItem sep endc render last e) = 1 := by
  subst he
  simp [containerItem, printScalars, List.count_cons, hsep, hend,
    List.count_eq_zero.mpr hr]

lemma containerItems_count {α : Type} [DecidableEq α] (sep endc : Char)
    (render : α → List Char) (last : α) (hsep : sep ≠ '}') (hend : endc ≠ '}') :
    ∀ xs : List α, (∀ e ∈ xs, '}' ∉ render e) →
      List.count '}' ((xs.map (containerItem sep endc render last)).flatten) =
        xs.count last := by
  intro xs
  induction xs with
  | nil => intro _; rfl
  | cons x t ih =>
      intro hr
      have hx : '}' ∉ render x := hr x (List.mem_cons.mpr (Or.inl rfl))
      have ht := ih fun e he => hr e (List.mem_cons.mpr (Or.inr he))
      rw [List.map_cons, List.flatten_cons, List.count_append, ht,
        List.count_cons]
      by_cases hxl : x = last
      · rw [containerItem_count_eq sep endc render last x hx hsep hend hxl]
        simp [hxl]
        omega
      · rw [containerItem_count_ne sep endc render last x hx hsep hxl]
        simp [hxl]

/-- Claim C3, counterexample: with separator a blank and terminator a
newline, the top-level call print(1, 2, 3) emits the separator after the
final value as well, followed by the terminator, so the emitted text is
not the claimed text in which the final value is followed by the
terminator alone. -/
theorem printScalars_trailing_sep_counterexample :
    printScalars ' ' '\n' [['1'], ['2'], ['3']] =
      ['1', ' ', '2', ' ', '3', ' ', '\n'] ∧
    printScalars ' ' '\n' [['1'], ['2'], ['3']] ≠
      ['1', ' ', '2', ' ', '3', '\n'] := by
  decide

/-- Claim C3, amended: every argument of the top-level call, the final one
included, is written followed by the separator, and the terminator is then
written after the trailing separator; print(1, 2, 3) therefore emits
1 sep 2 sep 3 sep end. -/
theorem printScalars_emits_sep_after_every_value (sep endc : Char)
    (vs : List (List Char)) :
    printScalars sep endc vs =
      (vs.map (fun v => v ++ [sep])).flatten ++ [endc] := by
  induction vs with
  | nil => rfl
  | cons v rest ih => simp [printScalars, ih]

/-- Claim C7, counterexample: the container [1, 2, 1] has an element equal
to its last element before the physically last position, yet the routine
does not stop there: it emits the closing brace at that element and then
keeps rendering the remaining elements, so the output is not the
early-terminated text. -/
theorem printContainer_no_early_stop_counterexample :
    printContainer ' ' '\n' (fun n => [Nat.digitChar n]) [1, 2, 1] =
      some ['{', ' ', ' ', '1', ' ', '}', ' ', '\n',
            '2', ' ', ',', ' ', ' ', '1', ' ', '}', ' ', '\n'] ∧
    printContainer ' ' '\n' (fun n => [Nat.digitChar n]) [1, 2, 1] ≠
      some ['{', ' ', ' ', '1', ' ', '}', ' ', '\n'] := by
  decide

/-- Claim C7, amended: the loop has no early exit.  On a non-empty
container every element is rendered (the output length accounts for each
element of the container), and the closing brace is emitted at every
element comparing equal to the last element, not only at the first such
element; rendering then continues with the elements after it. -/
theorem printContainer_renders_every_element {α : Type} [DecidableEq α]
    (sep endc : Char) (render : α → List Char) (xs : List α)
    (h : xs ≠ []) (hr : ∀ e ∈ xs, '}' ∉ render e)
    (hsep : sep ≠ '}') (hend : endc ≠ '}') :
    ∃ out, printContainer sep endc render xs = some out ∧
      out.length = 3 + (xs.map (fun e => (render e).length + 4)).sum ∧
      out.count '}' = xs.count (xs.getLast h) := by
  have hlast : xs.getLast? = some (xs.getLast h) := List.getLast?_eq_getLast xs h
  refine ⟨printScalars sep ' ' [['{']] ++
      (xs.map (containerItem sep endc render (xs.getLast h))).flatten,
    ?_, ?_, ?_⟩
  · unfold printContainer
    rw [hlast]
  · rw [List.length_append, List.length_flatten, List.map_map]
    have hmap : List.map (List.length ∘ containerItem sep endc render (xs.getLast h)) xs
        = List.map (fun e => (render e).length + 4) xs :=
      List.map_congr_left fun e _ =>
        containerItem_length sep endc render (xs.getLast h) e
    rw [hmap]
    have hpre : (printScalars sep ' ' [['{']]).length = 3 := by
      simp [printScalars]
    rw [hpre]
  · have hpre : List.count '}' (printScalars sep ' ' [['{']]) = 0 := by
      simp [printScalars, List.count_cons, hsep]
    rw [List.count_append, hpre,
      containerItems_count sep endc render (xs.getLast h) hsep hend xs hr]
    simp

/-- Claim C7, amended, witness at the container [1, 2, 1]. -/
theorem printContainer_renders_every_element_witness :
    (([1, 2, 1] : List Nat) ≠ [] ∧
      (∀ e ∈ ([1, 2, 1] : List Nat), '}' ∉ [Nat.digitChar e]) ∧
      ' ' ≠ '}' ∧ '\n' ≠ '}') ∧
    ∃ out, printContainer ' ' '\n' (fun n => [Nat.digitChar n]) [1, 2, 1] =
        some out ∧
      out.length =
        3 + (([1, 2, 1] : List Nat).map
          (fun e => ([Nat.digitChar e] : List Char).length + 4)).sum ∧
      out.count '}' =
        ([1, 2, 1] : List Nat).count (([1, 2, 1] : List Nat).getLast (by decide)) :=
  ⟨⟨by decide, by decide, by decide, by decide⟩,
    printContainer_renders_every_element ' ' '\n' (fun n => [Nat.digitChar n])
      [1, 2, 1] (by decide) (by decide) (by decide) (by decide)⟩

/-- Claim C9: on a non-empty container every embedded access of the
container print routine is valid, so the routine produces an output (the
error branch of the one-before-end access is unreachable), while on an
empty container the one-before-end access has no valid result. -/
theorem printContainer_accesses_in_range {α : Type} [DecidableEq α]
    (sep endc : Char) (render : α → List Char) (xs : List α) (h : xs ≠ []) :
    (printContainer sep endc render xs).isSome = true ∧
    printContainer sep endc render ([] : List α) = none := by
  constructor
  · obtain ⟨last, hlast⟩ :=
      Option.isSome_iff_exists.mp (List.getLast?_isSome.mpr h)
    unfold printContainer
    rw [hlast]
    rfl
  · rfl

/-- Claim C9, witness at the container [1, 2, 3]. -/
theorem printContainer_accesses_in_range_witness :
    (([1, 2, 3] : List Nat) ≠ []) ∧
    ((printContainer ' ' '\n' (fun n => [Nat.digitChar n]) [1, 2, 3]).isSome = true ∧
      printContainer ' ' '\n' (fun n => [Nat.digitChar n]) ([] : List Nat) = none) :=
  ⟨by decide,
    printContainer_accesses_in_range ' ' '\n' (fun n => [Nat.digitChar n])
      [1, 2, 3] (by decide)⟩

/-- Claim C2: the unit thresholds are evaluated in source order and the
claimed inputs select the claimed units with truncating quotients, except
in the hour branch, where the source divides the fine magnitude by
60000000 instead of the documented 60000000000: on the input 5e12 the code
yields the fine magnitude 83333 with the minutes label, while the
documented quotient by 60e9 is 83. -/
theorem human_readable_time_hour_fine_divisor_bug :
    (human_readable_time 500).unit = " ns" ∧
    (human_readable_time 500).diff = 500 ∧
    (human_readable_time 1500).unit = " µs" ∧
    (human_readable_time 1500).diff = 1 ∧
    (human_readable_time 2500000).unit = " ms" ∧
    (human_readable_time 2500000).unit_fine = " µs" ∧
    (human_readable_time 2500000).diff = 2 ∧
    (human_readable_time 2500000).diff_fine = 2500 ∧
    (human_readable_time 1500000000).unit = " s" ∧
    (human_readable_time 1500000000).unit_fine = " ms" ∧
    (human_readable_time 1500000000).diff = 1 ∧
    (human_readable_time 1500000000).diff_fine = 1500 ∧
    (human_readable_time 90000000000).unit = " m" ∧
    (human_readable_time 90000000000).unit_fine = " s" ∧
    (human_readable_time 90000000000).diff = 1 ∧
    (human_readable_time 90000000000).diff_fine = 90 ∧
    (human_readable_time 5000000000000).unit = " h" ∧
    (human_readable_time 5000000000000).unit_fine = " m" ∧
    (human_readable_time 5000000000000).diff = 1 ∧
    (human_readable_time 5000000000000).diff_fine = 83333 ∧
    Int.tdiv 5000000000000 60000000000 = 83 ∧ (83333 : Int) ≠ 83 := by
  decide

lemma timerFoldl (ops : List TimerOp) : ∀ s : Bool, ∀ r : Nat,
    (ops.foldl timerApply (s, r)).2 = r + ops.count TimerOp.stop ∧
    (ops.foldl timerApply (s, r)).1 =
      (s || decide (0 < ops.count TimerOp.stop)) := by
  induction ops with
  | nil => intro s r; simp
  | cons op t ih =>
      intro s r
      cases op with
      | stop =>
          have h := ih true (r + 1)
          constructor
          · rw [List.foldl_cons]
            simp only [timerApply]
            rw [h.1]
            simp [List.count_cons]
            omega
          · rw [List.foldl_cons]
            simp only [timerApply]
            rw [h.2]
            simp [List.count_cons]
      | restart =>
          have h := ih s r
          constructor
          · rw [List.foldl_cons]
            simp only [timerApply]
            rw [h.1]
            simp [List.count_cons]
          · rw [List.foldl_cons]
            simp only [timerApply]
            rw [h.2]
            simp [List.count_cons]

/-- Claim C6: over any lifetime in which `stop()` is invoked at most once
(in particular, never invoked, or invoked exactly once, with any number of
interleaved `restart()` calls), exactly one elapsed-time report is
emitted between construction and destruction: the destructor reports
exactly when no explicit `stop()` did. -/
theorem timer_reports_once (ops : List TimerOp)
    (h : ops.count TimerOp.stop ≤ 1) :
    timerLifetimeReports ops = 1 := by
  unfold timerLifetimeReports timerDestruct
  have hf := timerFoldl ops false 0
  rcases hfold : ops.foldl timerApply (false, 0) with ⟨s, r⟩
  rw [hfold] at hf
  simp only at hf
  rcases hf with ⟨hr, hs⟩
  simp only [Bool.false_or] at hs
  rcases Nat.eq_zero_or_pos (ops.count TimerOp.stop) with hc | hc
  · subst hr
    rw [hs]
    simp [hc]
  · have hc1 : ops.count TimerOp.stop = 1 := le_antisymm h hc
    subst hr
    rw [hs]
    simp [hc1]

/-- Claim C6, witness: a lifetime with a single explicit stop. -/
theorem timer_reports_once_witness :
    ([TimerOp.stop].count TimerOp.stop ≤ 1) ∧
    timerLifetimeReports [TimerOp.stop] = 1 :=
  ⟨by decide, timer_reports_once [TimerOp.stop] (by decide)⟩

lemma xor_mod_two_pow (n a b : Nat) (ha : a < 2 ^ n) :
    a ^^^ (b % 2 ^ n) = (a ^^^ b) % 2 ^ n := by
  apply Nat.eq_of_testBit_eq
  intro i
  simp only [Nat.testBit_xor, Nat.testBit_mod_two_pow]
  by_cases hi : i < n
  · simp [hi]
  · have hai : a.testBit i = false :=
      Nat.testBit_lt_two_pow
        (lt_of_lt_of_le ha (Nat.pow_le_pow_right (by norm_num) (le_of_not_lt hi)))
    simp [hi, hai]

lemma leftStep_lt (k : Nat) {x : Nat} (hx : x < 2 ^ 32) :
    leftStep k x < 2 ^ 32 :=
  Nat.xor_lt_two_pow hx (Nat.mod_lt _ (by norm_num))

lemma rightStep_lt {x : Nat} (hx : x < 2 ^ 32) : rightStep x < 2 ^ 32 := by
  refine Nat.xor_lt_two_pow hx (lt_of_le_of_lt ?_ hx)
  rw [Nat.shiftRight_eq_div_pow]
  exact Nat.div_le_self _ _

lemma xsStep_lt {x : Nat} (hx : x < 2 ^ 32) : xsStep x < 2 ^ 32 :=
  leftStep_lt 5 (rightStep_lt (leftStep_lt 13 hx))

lemma next_fst_seed (g : xorshift32) : (g.next).1.seed_ = xsStep g.seed_ := rfl

lemma next_snd (g : xorshift32) : (g.next).2 = xsStep g.seed_ := rfl

/-- Claim C1: one generation call computes exactly the three xor-shift
steps with shift amounts 13, 17, 5 in 32-bit wraparound arithmetic (as the
spec words them, reducing every intermediate modulo 2^32), stores the
result as the new state, and returns that new state. -/
theorem xorshift32_transition_is_three_xorshift_steps (g : xorshift32)
    (h : g.seed_ < 2 ^ 32) :
    g.next = (⟨specTransition g.seed_⟩, specTransition g.seed_) := by
  have h1lt : leftStep 13 g.seed_ < 2 ^ 32 := leftStep_lt 13 h
  have h2lt : rightStep (leftStep 13 g.seed_) < 2 ^ 32 := rightStep_lt h1lt
  have e1 : leftStep 13 g.seed_ = (g.seed_ ^^^ g.seed_ <<< 13) % 2 ^ 32 :=
    xor_mod_two_pow 32 _ _ h
  have e2 : rightStep (leftStep 13 g.seed_) =
      (leftStep 13 g.seed_ ^^^ leftStep 13 g.seed_ >>> 17) % 2 ^ 32 :=
    (Nat.mod_eq_of_lt h2lt).symm
  have e3 : leftStep 5 (rightStep (leftStep 13 g.seed_)) =
      (rightStep (leftStep 13 g.seed_) ^^^
        rightStep (leftStep 13 g.seed_) <<< 5) % 2 ^ 32 :=
    xor_mod_two_pow 32 _ _ h2lt
  have key : specTransition g.seed_ = xsStep g.seed_ := by
    unfold xsStep
    rw [e3, e2, e1]
    rfl
  rw [key]
  rfl

/-- Claim C1, witness at the default-constructed generator (state 12). -/
theorem xorshift32_transition_is_three_xorshift_steps_witness :
    ((⟨12⟩ : xorshift32).seed_ < 2 ^ 32) ∧
    (⟨12⟩ : xorshift32).next = (⟨specTransition 12⟩, specTransition 12) :=
  ⟨by decide, xorshift32_transition_is_three_xorshift_steps ⟨12⟩ (by decide)⟩

lemma genList_succ (g : xorshift32) (n : Nat) :
    genList g (n + 1) = (g.next).2 :: genList (g.next).1 n := rfl

lemma discardN_genList_last : ∀ (n : Nat) (g : xorshift32),
    (genList g (n + 1)).getLast? = some (((discardN g n).next).2) := by
  intro n
  induction n with
  | zero => intro g; rfl
  | succ n ih =>
      intro g
      rw [genList_succ, genList_succ, List.getLast?_cons_cons, ← genList_succ,
        ih (g.next).1]
      rfl

/-- Claim C4: the output stream of a generator is a pure function of the
seed (generators in equal states produce identical output sequences over
any number of generation calls), and discarding n outputs and then
generating once yields exactly the last of n+1 successive generation
calls. -/
theorem xorshift32_discard_equals_iterated_generation
    (g1 g2 : xorshift32) (h : g1.seed_ = g2.seed_) (n : Nat) :
    genList g1 n = genList g2 n ∧
    (genList g1 (n + 1)).getLast? = some (((g1.discard (n : Int)).next).2) := by
  have hg : g1 = g2 := by
    cases g1
    cases g2
    simpa using h
  refine ⟨by rw [hg], ?_⟩
  unfold xorshift32.discard
  rw [Int.toNat_natCast]
  exact discardN_genList_last n g1

/-- Claim C4, witness: two generators seeded with 12 and two discarded
outputs. -/
theorem xorshift32_discard_equals_iterated_generation_witness :
    ((⟨12⟩ : xorshift32).seed_ = (⟨12⟩ : xorshift32).seed_) ∧
    (genList ⟨12⟩ 2 = genList ⟨12⟩ 2 ∧
      (genList ⟨12⟩ (2 + 1)).getLast? =
        some ((((⟨12⟩ : xorshift32).discard ((2 : Nat) : Int)).next).2)) :=
  ⟨rfl, xorshift32_discard_equals_iterated_generation ⟨12⟩ ⟨12⟩ rfl 2⟩

/-- Claim C8: zero is an absorbing fixed point: starting from state 0,
any number of successive generation calls returns only zeros and the
state stays 0 throughout. -/
theorem xorshift32_zero_state_absorbing (n : Nat) :
    genList ⟨0⟩ n = List.replicate n 0 ∧ (discardN ⟨0⟩ n).seed_ = 0 := by
  have hstep : (xorshift32.next ⟨0⟩) = (⟨0⟩, 0) := by decide
  induction n with
  | zero => exact ⟨rfl, rfl⟩
  | succ n ih =>
      constructor
      · rw [genList_succ, hstep, ih.1, List.replicate_succ]
      · show (discardN ((xorshift32.next ⟨0⟩).1) n).seed_ = 0
        rw [hstep]
        exact ih.2

lemma decDigitsAux_lt_ten : ∀ (f n : Nat), ∀ d ∈ decDigitsAux f n, d < 10 := by
  intro f
  induction f with
  | zero => intro n d hd; simp [decDigitsAux] at hd
  | succ f ih =>
      intro n d hd
      cases n with
      | zero => simp [decDigitsAux] at hd
      | succ m =>
          rw [decDigitsAux] at hd
          rcases List.mem_cons.mp hd with h | h
          · rw [h]; exact Nat.mod_lt _ (by norm_num)
          · exact ih _ d h

lemma decDigitsAux_ofDigits : ∀ (f n : Nat), n ≤ f →
    ofDigits10 (decDigitsAux f n) = n := by
  intro f
  induction f with
  | zero =>
      intro n hn
      interval_cases n
      rfl
  | succ f ih =>
      intro n hn
      cases n with
      | zero => rfl
      | succ m =>
          rw [decDigitsAux, ofDigits10]
          have hdiv : (m + 1) / 10 ≤ f := by
            have := Nat.div_lt_self (Nat.succ_pos m) (by norm_num : 1 < 10)
            omega
          rw [ih _ hdiv]
          have := Nat.mod_add_div (m + 1) 10
          omega

lemma digitChar_decode (d : Nat) (hd : d < 10) :
    (Nat.digitChar d).toNat - 48 = d := by
  interval_cases d <;> decide

lemma foldl_dec_of_digits (l : List Nat) (hl : ∀ d ∈ l, d < 10) : ∀ a : Nat,
    List.foldl (fun a c => a * 10 + (c.toNat - 48)) a
        ((l.map Nat.digitChar).reverse) =
      a * 10 ^ l.length + ofDigits10 l := by
  induction l with
  | nil => intro a; simp [ofDigits10]
  | cons d t ih =>
      intro a
      have hd : d < 10 := hl d (List.mem_cons.mpr (Or.inl rfl))
      have ht := ih fun e he => hl e (List.mem_cons.mpr (Or.inr he))
      rw [List.map_cons, List.reverse_cons, List.foldl_append, ht a]
      show (a * 10 ^ t.length + ofDigits10 t) * 10 +
          ((Nat.digitChar d).toNat - 48) = a * 10 ^ (d :: t).length + ofDigits10 (d :: t)
      rw [digitChar_decode d hd, ofDigits10, List.length_cons, pow_succ]
      ring

lemma write_read_roundtrip (g : xorshift32) :
    xorshift32.read (xorshift32.write g) = g := by
  unfold xorshift32.read xorshift32.write
  by_cases h0 : g.seed_ = 0
  · simp only [h0, if_pos rfl]
    cases g
    simp only at h0
    subst h0
    rfl
  · rw [if_neg h0]
    unfold decCharsToNat
    rw [foldl_dec_of_digits (decDigits g.seed_) (decDigitsAux_lt_ten _ _) 0,
      decDigits, decDigitsAux_ofDigits g.seed_ g.seed_ (le_refl _)]
    cases g
    simp

/-- Claim C5: writing a generator to a text stream as its decimal state
and reading that text back into a fresh generator reproduces a generator
that compares equal to the original (raw state comparison) and whose
entire subsequent output sequence coincides with the original one. -/
theorem xorshift32_serialization_roundtrip (g : xorshift32) :
    xorshift32.read (xorshift32.write g) = g ∧
    xorshift32.eqOp (xorshift32.read (xorshift32.write g)) g = true ∧
    ∀ n : Nat, genList (xorshift32.read (xorshift32.write g)) n = genList g n := by
  have h := write_read_roundtrip g
  refine ⟨h, ?_, fun n => by rw [h]⟩
  rw [h]
  simp [xorshift32.eqOp]

lemma bool_xor_cancel (x y c : Bool) (h : (x ^^ c) = (y ^^ c)) : x = y := by
  cases x <;> cases y <;> cases c <;> simp_all

lemma testBit_ge_32 {x i : Nat} (hx : x < 2 ^ 32) (hi : 32 ≤ i) :
    x.testBit i = false :=
  Nat.testBit_lt_two_pow
    (lt_of_lt_of_le hx (Nat.pow_le_pow_right (by norm_num) hi))

lemma leftStep_injOn (k : Nat) (hk : 0 < k) {a b : Nat}
    (ha : a < 2 ^ 32) (hb : b < 2 ^ 32)
    (h : leftStep k a = leftStep k b) : a = b := by
  apply Nat.eq_of_testBit_eq
  intro i
  induction i using Nat.strong_induction_on with
  | _ i ih =>
      have hbit := congrArg (fun t => Nat.testBit t i) h
      simp only [leftStep, Nat.testBit_xor, Nat.testBit_mod_two_pow,
        Nat.testBit_shiftLeft] at hbit
      by_cases h32 : i < 32
      · by_cases hik : k ≤ i
        · have hrec : Nat.testBit a (i - k) = Nat.testBit b (i - k) :=
            ih (i - k) (by omega)
          simp [h32, hik, hrec] at hbit
          exact hbit
        · simp [h32, hik] at hbit
          exact hbit
      · rw [testBit_ge_32 ha (by omega), testBit_ge_32 hb (by omega)]

lemma rightStep_injOn {a b : Nat} (ha : a < 2 ^ 32) (hb : b < 2 ^ 32)
    (h : rightStep a = rightStep b) : a = b := by
  have key : ∀ j i, 32 ≤ i + 17 * j → Nat.testBit a i = Nat.testBit b i := by
    intro j
    induction j with
    | zero =>
        intro i hi
        rw [testBit_ge_32 ha (by omega), testBit_ge_32 hb (by omega)]
    | succ j ih =>
        intro i hi
        by_cases h32 : 32 ≤ i
        · rw [testBit_ge_32 ha h32, testBit_ge_32 hb h32]
        · have hbit := congrArg (fun t => Nat.testBit t i) h
          simp only [rightStep, Nat.testBit_xor, Nat.testBit_shiftRight] at hbit
          have hrec : Nat.testBit a (17 + i) = Nat.testBit b (17 + i) :=
            ih (17 + i) (by omega)
          rw [hrec] at hbit
          exact bool_xor_cancel _ _ _ hbit
  exact Nat.eq_of_testBit_eq fun i => key 2 i (by omega)

lemma xsStep_injOn {a b : Nat} (ha : a < 2 ^ 32) (hb : b < 2 ^ 32)
    (h : xsStep a = xsStep b) : a = b := by
  apply leftStep_injOn 13 (by norm_num) ha hb
  apply rightStep_injOn (leftStep_lt 13 ha) (leftStep_lt 13 hb)
  exact leftStep_injOn 5 (by norm_num)
    (rightStep_lt (leftStep_lt 13 ha)) (rightStep_lt (leftStep_lt 13 hb)) h

lemma xsStep_zero : xsStep 0 = 0 := by decide

lemma xsStep_ne_zero {x : Nat} (hx : x < 2 ^ 32) (hnz : x ≠ 0) :
    xsStep x ≠ 0 := fun h0 =>
  hnz (xsStep_injOn hx (by norm_num) (h0.trans xsStep_zero.symm))

/-- The one-call transition as a map of the 32-bit state space into
itself. -/
def xsStepFin (x : Fin (2 ^ 32)) : Fin (2 ^ 32) :=
  ⟨xsStep x.1, xsStep_lt x.2⟩

lemma xsStepFin_bijective : Function.Bijective xsStepFin :=
  Finite.injective_iff_bijective.mp fun a b h =>
    Fin.ext (xsStep_injOn a.2 b.2 (congrArg Fin.val h))

lemma discardN_preserves : ∀ (n : Nat) (g : xorshift32),
    g.seed_ < 2 ^ 32 → g.seed_ ≠ 0 →
    (discardN g n).seed_ < 2 ^ 32 ∧ (discardN g n).seed_ ≠ 0 := by
  intro n
  induction n with
  | zero => intro g h1 h2; exact ⟨h1, h2⟩
  | succ n ih =>
      intro g h1 h2
      show (discardN (g.next).1 n).seed_ < 2 ^ 32 ∧ (discardN (g.next).1 n).seed_ ≠ 0
      apply ih
      · rw [next_fst_seed]; exact xsStep_lt h1
      · rw [next_fst_seed]; exact xsStep_ne_zero h1 h2

/-- Claim C10: from any nonzero 32-bit state, one generation call yields a
nonzero new state, the nonzero invariant is preserved by discard over any
number of iterations, and the three-step transition is a bijection of the
32-bit state space (so 0 is the only preimage of 0). -/
theorem xorshift32_nonzero_invariant_preserved (g : xorshift32)
    (h1 : g.seed_ < 2 ^ 32) (h2 : g.seed_ ≠ 0) (n : Nat) :
    ((g.next).1.seed_ ≠ 0) ∧
    ((g.discard (n : Int)).seed_ ≠ 0) ∧
    Function.Bijective xsStepFin := by
  refine ⟨?_, ?_, xsStepFin_bijective⟩
  · rw [next_fst_seed]
    exact xsStep_ne_zero h1 h2
  · unfold xorshift32.discard
    rw [Int.toNat_natCast]
    exact (discardN_preserves n g h1 h2).2

/-- Claim C10, witness at the default seed 12 with five discarded
steps. -/
theorem xorshift32_nonzero_invariant_preserved_witness :
    ((⟨12⟩ : xorshift32).seed_ < 2 ^ 32 ∧ (⟨12⟩ : xorshift32).seed_ ≠ 0) ∧
    (((⟨12⟩ : xorshift32).next).1.seed_ ≠ 0 ∧
      (((⟨12⟩ : xorshift32).discard ((5 : Nat) : Int)).seed_ ≠ 0) ∧
      Function.Bijective xsStepFin) :=
  ⟨⟨by decide, by decide⟩,
    xorshift32_nonzero_invariant_preserved ⟨12⟩ (by decide) (by decide) 5⟩

end CodeUtils
